import Mathlib

/-!
Verification of the x86 string-operation library: the register-type layer
(types.rs), the four primitive operations (assembly.rs) and the checked
slice wrapper (slice.rs), shallowly embedded over lists of machine values.

A machine value of any register type is modelled by its bit pattern, a
natural number below 2 ^ (8 * byte width); a memory region is a list of
such values.  The portable fallback branch of each primitive (the branch
compiled on non-x86_64 targets and under miri) is embedded directly; the
x86_64 inline-assembly branch is modelled separately from the documented
semantics of the rep-prefixed string instructions it emits.
-/

/-- The closed set of register types: the sealed RegisterType trait of
types.rs is implemented for exactly these twelve primitive types. -/
inductive RegisterType where
  | i8 | u8 | i16 | u16 | i32 | u32 | i64 | u64 | i128 | u128 | f32 | f64
deriving DecidableEq, Repr

/-- f32::to_bits / f64::to_bits: values are already modelled by their IEEE
bit pattern, so the reinterpretation is the identity on the model. -/
def floatToBits (x : Nat) : Nat := x

/-- Exponent field of an f32 bit pattern (8 bits at offset 23). -/
def f32_exponent (x : Nat) : Nat := x / 2 ^ 23 % 2 ^ 8

/-- Fraction field of an f32 bit pattern (low 23 bits). -/
def f32_fraction (x : Nat) : Nat := x % 2 ^ 23

/-- An f32 bit pattern denotes NaN when the exponent field is all ones and
the fraction field is non-zero. -/
def f32_is_nan (x : Nat) : Bool := f32_exponent x == 255 && f32_fraction x != 0

/-- An f32 bit pattern denotes a zero when everything but the sign bit is
zero: the patterns 0 (+0.0) and 2 ^ 31 (-0.0). -/
def f32_is_zero (x : Nat) : Bool := x % 2 ^ 31 == 0

/-- IEEE-754 value equality of two f32 bit patterns (the semantics of the
Rust f32 PartialEq, the contrast to bitwise_eq): NaN is equal to nothing,
the two zeros are equal to each other, and otherwise two in-range patterns
denote equal values exactly when they coincide. -/
def f32_eq (a b : Nat) : Bool :=
  !f32_is_nan a && !f32_is_nan b && (a == b || (f32_is_zero a && f32_is_zero b))

/-- Exponent field of an f64 bit pattern (11 bits at offset 52). -/
def f64_exponent (x : Nat) : Nat := x / 2 ^ 52 % 2 ^ 11

/-- Fraction field of an f64 bit pattern (low 52 bits). -/
def f64_fraction (x : Nat) : Nat := x % 2 ^ 52

/-- An f64 bit pattern denotes NaN when the exponent field is all ones and
the fraction field is non-zero. -/
def f64_is_nan (x : Nat) : Bool := f64_exponent x == 2047 && f64_fraction x != 0

/-- An f64 bit pattern denotes a zero: the patterns 0 (+0.0) and
2 ^ 63 (-0.0). -/
def f64_is_zero (x : Nat) : Bool := x % 2 ^ 63 == 0

/-- IEEE-754 value equality of two f64 bit patterns (the semantics of the
Rust f64 PartialEq). -/
def f64_eq (a b : Nat) : Bool :=
  !f64_is_nan a && !f64_is_nan b && (a == b || (f64_is_zero a && f64_is_zero b))

namespace RegisterType

/-- Element byte width, core::mem::size_of of the register type. -/
def size : RegisterType → Nat
  | .i8 | .u8 => 1
  | .i16 | .u16 => 2
  | .i32 | .u32 | .f32 => 4
  | .i64 | .u64 | .f64 => 8
  | .i128 | .u128 => 16

/-- Whether the register type is one of the two floating-point members. -/
def isFloat : RegisterType → Bool
  | .f32 | .f64 => true
  | _ => false

/-- types.rs bitwise_eq: the ten integer impls compare with native equality,
the f32 and f64 impls compare to_bits.  On the bit-pattern value model,
native integer equality is equality of patterns, since for each integer
type the pattern determines the value and vice versa. -/
def bitwise_eq (t : RegisterType) (a b : Nat) : Bool :=
  match t with
  | .f32 => floatToBits a == floatToBits b
  | .f64 => floatToBits a == floatToBits b
  | _ => a == b

/-- Native (PartialEq) equality of two values of the register type: pattern
equality for the integer types, IEEE value equality for f32 and f64. -/
def nativeEq (t : RegisterType) (a b : Nat) : Bool :=
  match t with
  | .f32 => f32_eq a b
  | .f64 => f64_eq a b
  | _ => a == b

end RegisterType

/-- Iterator::position, as used by the portable fallbacks of rep_cmps and
rep_scas: the index of the first element satisfying the predicate. -/
def listPosition (p : α → Bool) : List α → Option Nat
  | [] => none
  | x :: xs => if p x then some 0 else Option.map (· + 1) (listPosition p xs)

/-- assembly.rs rep_movs, portable branch: ptr::copy_nonoverlapping of len
elements from src into the region at dst; memory past the region is left
untouched. -/
def rep_movs (src dst : List α) (len : Nat) : List α :=
  src.take len ++ dst.drop len

/-- assembly.rs rep_stos, portable branch: slice::fill of the len-element
region at dst with the value. -/
def rep_stos (v : α) (dst : List α) (len : Nat) : List α :=
  List.replicate len v ++ dst.drop len

/-- assembly.rs rep_cmps, portable branch: position of the first index at
which the two zipped len-element regions fail the bitwise-equality
predicate. -/
def rep_cmps (beq : α → α → Bool) (a b : List α) (len : Nat) : Option Nat :=
  listPosition (fun xy => !beq xy.1 xy.2) (List.zip (a.take len) (b.take len))

/-- assembly.rs rep_scas, portable branch: position of the first element of
the len-element region bitwise-equal to the needle. -/
def rep_scas (beq : α → α → Bool) (src : List α) (v : α) (len : Nat) : Option Nat :=
  listPosition (fun x => beq x v) (src.take len)

/-- slice.rs inline_fill: no length check, forwards to rep_stos over the
whole slice.  The Option String component is the panic channel of the
wrapper layer: none means no fault was raised. -/
def inline_fill (v : α) (xs : List α) : List α × Option String :=
  (rep_stos v xs xs.length, none)

/-- slice.rs inline_position: no length check, forwards to rep_scas over the
whole slice; the Except models the wrapper's panic channel. -/
def inline_position (beq : α → α → Bool) (xs : List α) (v : α) :
    Except String (Option Nat) :=
  Except.ok (rep_scas beq xs v xs.length)

/-- slice.rs inline_copy_from: assert_eq! of the two lengths (its panic is
the length-mismatch fault) and only then rep_movs from other into self.
When the fault fires, the destination memory is returned unchanged, the
assertion preceding the copy in the source. -/
def inline_copy_from (dest other : List α) : List α × Option String :=
  if dest.length = other.length then (rep_movs other dest dest.length, none)
  else (dest, some "length mismatch")

/-- slice.rs inline_mismatch: assert_eq! of the two lengths, then rep_cmps
over the whole slices. -/
def inline_mismatch (beq : α → α → Bool) (xs other : List α) :
    Except String (Option Nat) :=
  if xs.length = other.length then Except.ok (rep_cmps beq xs other xs.length)
  else Except.error "length mismatch"

/-- One run of repe cmps, the x86_64 branch of rep_cmps, starting right
after the emitted test rcx,rcx (which leaves ZF set exactly when the
element count is zero).  Element pairs are compared while equal, both
cursors post-incrementing each iteration.  Returns the number of elements
consumed and the final ZF. -/
def repeCmpsRun (beq : α → α → Bool) : List α → List α → Nat × Bool
  | x :: xs, y :: ys =>
    if beq x y then ((repeCmpsRun beq xs ys).1 + 1, (repeCmpsRun beq xs ys).2)
    else (1, false)
  | _, _ => (0, true)

/-- x86_64 branch of rep_cmps at element granularity (the arms for element
sizes 8, 4 and 2, and size 1 where the bytes are the elements): sete
captures the final ZF, and on a mismatch the reported index is the cursor
advance in elements minus one, compensating the post-increment. -/
def rep_cmps_x86 (beq : α → α → Bool) (a b : List α) : Option Nat :=
  if (repeCmpsRun beq a b).2 then none else some ((repeCmpsRun beq a b).1 - 1)

/-- One run of repne scas, the x86_64 branch of rep_scas, starting right
after the emitted test rdi,rdi (which clears ZF, the source pointer of a
valid region being non-null).  Elements are compared against the needle
while unequal, the cursor post-incrementing each iteration.  Returns the
number of elements consumed and the final ZF. -/
def repneScasRun (p : α → Bool) : List α → Nat × Bool
  | [] => (0, false)
  | x :: xs =>
    if p x then (1, true)
    else ((repneScasRun p xs).1 + 1, (repneScasRun p xs).2)

/-- x86_64 branch of rep_scas at element granularity: sete captures the
final ZF, and on a hit the reported index is the cursor advance in elements
minus one. -/
def rep_scas_x86 (beq : α → α → Bool) (src : List α) (v : α) : Option Nat :=
  if (repneScasRun (fun x => beq x v) src).2
  then some ((repneScasRun (fun x => beq x v) src).1 - 1) else none

/-- Little-endian byte decomposition of a value into the given number of
bytes. -/
def toBytes : Nat → Nat → List Nat
  | 0, _ => []
  | w + 1, v => v % 256 :: toBytes w (v / 256)

/-- The byte image of a region of values of the given element byte width. -/
def regionBytes (size : Nat) (xs : List Nat) : List Nat :=
  (xs.map (toBytes size)).flatten

/-- x86_64 branch of rep_stos, default dispatch arm (element sizes other
than 8, 4 and 2, i.e. the 1- and 16-byte types): transmute_copy into u8
keeps only the least-significant byte of the value (x86_64 being
little-endian), and rep stosb stores that single byte into len * size bytes
of the destination.  Byte-granularity memory model. -/
def rep_stos_x86_default (size v : Nat) (dstBytes : List Nat) (len : Nat) :
    List Nat :=
  List.replicate (len * size) (v % 256) ++ dstBytes.drop (len * size)

/-!  General lemmas about the embedded operations. -/

theorem listPosition_eq_some_iff (p : α → Bool) (d : α) (l : List α) (k : Nat) :
    listPosition p l = some k ↔
      k < l.length ∧ p (l.getD k d) = true ∧ ∀ j, j < k → p (l.getD j d) = false := by
  induction l generalizing k with
  | nil => simp [listPosition]
  | cons x xs ih =>
    cases hx : p x with
    | true =>
      cases k with
      | zero => simp [listPosition, hx]
      | succ k =>
        refine iff_of_false (by simp [listPosition, hx]) ?_
        rintro ⟨-, -, hall⟩
        have h0 := hall 0 (Nat.succ_pos k)
        simp [List.getD_cons_zero, hx] at h0
    | false =>
      cases k with
      | zero =>
        refine iff_of_false (by simp [listPosition, hx]) ?_
        rintro ⟨-, hp, -⟩
        simp [List.getD_cons_zero, hx] at hp
      | succ k =>
        simp only [listPosition, hx, Bool.false_eq_true, if_false]
        constructor
        · intro h
          obtain ⟨a, ha, hak⟩ := Option.map_eq_some'.mp h
          have hk : a = k := by omega
          subst hk
          obtain ⟨h1, h2, h3⟩ := (ih a).mp ha
          refine ⟨by simpa using h1, by simpa [List.getD_cons_succ] using h2, ?_⟩
          intro j hj
          cases j with
          | zero => simp [List.getD_cons_zero, hx]
          | succ j =>
            rw [List.getD_cons_succ]
            exact h3 j (by omega)
        · rintro ⟨h1, h2, h3⟩
          refine Option.map_eq_some'.mpr ⟨k, (ih k).mpr ⟨by simpa using h1,
            by simpa [List.getD_cons_succ] using h2, ?_⟩, rfl⟩
          intro j hj
          have := h3 (j + 1) (by omega)
          rwa [List.getD_cons_succ] at this

theorem listPosition_eq_none_iff (p : α → Bool) (d : α) (l : List α) :
    listPosition p l = none ↔ ∀ j, j < l.length → p (l.getD j d) = false := by
  induction l with
  | nil => simp [listPosition]
  | cons x xs ih =>
    cases hx : p x with
    | true =>
      refine iff_of_false (by simp [listPosition, hx]) ?_
      intro hall
      have h0 := hall 0 (by simp)
      simp [List.getD_cons_zero, hx] at h0
    | false =>
      simp only [listPosition, hx, Bool.false_eq_true, if_false, Option.map_eq_none']
      rw [ih]
      constructor
      · intro h j hj
        cases j with
        | zero => simp [List.getD_cons_zero, hx]
        | succ j =>
          rw [List.getD_cons_succ]
          exact h j (by simpa using hj)
      · intro h j hj
        have := h (j + 1) (by simpa using hj)
        rwa [List.getD_cons_succ] at this

theorem getD_zip (a b : List α) (j : Nat) (d : α) (hja : j < a.length)
    (hjb : j < b.length) :
    (a.zip b).getD j (d, d) = (a.getD j d, b.getD j d) := by
  have hz : j < (a.zip b).length := by
    rw [List.length_zip]
    omega
  rw [List.getD_eq_getElem _ _ hz, List.getD_eq_getElem _ _ hja,
    List.getD_eq_getElem _ _ hjb, List.getElem_zip]

theorem rep_scas_eq_some_iff (beq : α → α → Bool) (d : α) (src : List α) (v : α)
    (n k : Nat) (h : src.length = n) :
    rep_scas beq src v n = some k ↔
      k < n ∧ beq (src.getD k d) v = true ∧
        ∀ j, j < k → beq (src.getD j d) v = false := by
  subst h
  simpa [rep_scas, List.take_length] using
    listPosition_eq_some_iff (fun x => beq x v) d src k

theorem rep_scas_eq_none_iff (beq : α → α → Bool) (d : α) (src : List α) (v : α)
    (n : Nat) (h : src.length = n) :
    rep_scas beq src v n = none ↔ ∀ j, j < n → beq (src.getD j d) v = false := by
  subst h
  simpa [rep_scas, List.take_length] using
    listPosition_eq_none_iff (fun x => beq x v) d src

theorem rep_cmps_eq_some_iff (beq : α → α → Bool) (d : α) (a b : List α)
    (n k : Nat) (ha : a.length = n) (hb : b.length = n) :
    rep_cmps beq a b n = some k ↔
      k < n ∧ beq (a.getD k d) (b.getD k d) = false ∧
        ∀ j, j < k → beq (a.getD j d) (b.getD j d) = true := by
  subst ha
  have ht : b.take a.length = b := by
    rw [← hb]
    exact List.take_length b
  rw [rep_cmps, List.take_length, ht,
    listPosition_eq_some_iff (fun xy => !beq xy.1 xy.2) (d, d)]
  have hlen : (a.zip b).length = a.length := by
    rw [List.length_zip]
    omega
  constructor
  · rintro ⟨hk, hbk, hall⟩
    rw [hlen] at hk
    rw [getD_zip a b k d hk (by omega)] at hbk
    refine ⟨hk, by simpa using hbk, fun j hj => ?_⟩
    have hja := hall j hj
    rw [getD_zip a b j d (by omega) (by omega)] at hja
    simpa using hja
  · rintro ⟨hk, hbk, hall⟩
    refine ⟨by omega, ?_, fun j hj => ?_⟩
    · rw [getD_zip a b k d hk (by omega)]
      simpa using hbk
    · rw [getD_zip a b j d (by omega) (by omega)]
      simpa using hall j hj

theorem rep_cmps_eq_none_iff (beq : α → α → Bool) (d : α) (a b : List α)
    (n : Nat) (ha : a.length = n) (hb : b.length = n) :
    rep_cmps beq a b n = none ↔
      ∀ j, j < n → beq (a.getD j d) (b.getD j d) = true := by
  subst ha
  have ht : b.take a.length = b := by
    rw [← hb]
    exact List.take_length b
  rw [rep_cmps, List.take_length, ht,
    listPosition_eq_none_iff (fun xy => !beq xy.1 xy.2) (d, d)]
  have hlen : (a.zip b).length = a.length := by
    rw [List.length_zip]
    omega
  rw [hlen]
  constructor
  · intro h j hj
    have hja := h j hj
    rw [getD_zip a b j d (by omega) (by omega)] at hja
    simpa using hja
  · intro h j hj
    rw [getD_zip a b j d (by omega) (by omega)]
    simpa using h j hj

theorem RegisterType.bitwise_eq_refl (t : RegisterType) (a : Nat) :
    t.bitwise_eq a a = true := by
  cases t <;> simp [RegisterType.bitwise_eq, floatToBits]

theorem rep_stos_eq_replicate (v : α) (dst : List α) (n : Nat)
    (h : dst.length = n) : rep_stos v dst n = List.replicate n v := by
  rw [rep_stos, ← h, List.drop_length, List.append_nil]

theorem rep_movs_eq_src (src dst : List α) (n : Nat) (hs : src.length = n)
    (hd : dst.length = n) : rep_movs src dst n = src := by
  rw [rep_movs, ← hs, List.take_length, ← hd.trans hs.symm, List.drop_length,
    List.append_nil]

theorem listPosition_zip_self (beq : α → α → Bool) (hrefl : ∀ x, beq x x = true)
    (xs : List α) :
    listPosition (fun xy => !beq xy.1 xy.2) (xs.zip xs) = none := by
  induction xs with
  | nil => rfl
  | cons x xs ih =>
    have hstep : ∀ l : List (α × α),
        listPosition (fun xy => !beq xy.1 xy.2) ((x, x) :: l) =
          Option.map (· + 1) (listPosition (fun xy => !beq xy.1 xy.2) l) := by
      intro l
      simp [listPosition, hrefl]
    rw [List.zip_cons_cons, hstep, ih]
    rfl

theorem rep_cmps_self (beq : α → α → Bool) (hrefl : ∀ x, beq x x = true)
    (xs : List α) : rep_cmps beq xs xs xs.length = none := by
  rw [rep_cmps, List.take_length]
  exact listPosition_zip_self beq hrefl xs

theorem rep_cmps_self_of_length (beq : α → α → Bool)
    (hrefl : ∀ x, beq x x = true) (xs : List α) (n : Nat)
    (h : xs.length = n) : rep_cmps beq xs xs n = none := by
  subst h
  exact rep_cmps_self beq hrefl xs

theorem rep_scas_replicate (beq : α → α → Bool) (v : α) (hrefl : beq v v = true)
    (n : Nat) :
    rep_scas beq (List.replicate n v) v n = if n = 0 then none else some 0 := by
  cases n with
  | zero => rfl
  | succ n =>
    rw [rep_scas]
    have ht : (List.replicate (n + 1) v).take (n + 1) = v :: List.replicate n v := by
      simp [List.take_replicate, List.replicate_succ]
    rw [ht]
    simp [listPosition, hrefl]

theorem rep_cmps_cons (beq : α → α → Bool) (x y : α) (a b : List α) (n : Nat) :
    rep_cmps beq (x :: a) (y :: b) (n + 1) =
      if beq x y then Option.map (· + 1) (rep_cmps beq a b n) else some 0 := by
  cases h : beq x y <;> simp [rep_cmps, listPosition, h, List.zip]

theorem rep_scas_cons (beq : α → α → Bool) (x : α) (xs : List α) (v : α) (n : Nat) :
    rep_scas beq (x :: xs) v (n + 1) =
      if beq x v then some 0 else Option.map (· + 1) (rep_scas beq xs v n) := by
  cases h : beq x v <;> simp [rep_scas, listPosition, h]

theorem repeCmpsRun_one_le (beq : α → α → Bool) :
    ∀ a b : List α, (repeCmpsRun beq a b).2 = false → 1 ≤ (repeCmpsRun beq a b).1 := by
  intro a
  induction a with
  | nil =>
    intro b h
    simp [repeCmpsRun] at h
  | cons x xs ih =>
    intro b h
    cases b with
    | nil => simp [repeCmpsRun] at h
    | cons y ys =>
      by_cases hxy : beq x y = true
      · rw [show repeCmpsRun beq (x :: xs) (y :: ys)
            = ((repeCmpsRun beq xs ys).1 + 1, (repeCmpsRun beq xs ys).2) from by
          simp [repeCmpsRun, hxy]]
        omega
      · simp [repeCmpsRun, hxy]

theorem repneScasRun_one_le (p : α → Bool) :
    ∀ src : List α, (repneScasRun p src).2 = true → 1 ≤ (repneScasRun p src).1 := by
  intro src
  induction src with
  | nil =>
    intro h
    simp [repneScasRun] at h
  | cons x xs ih =>
    intro h
    by_cases hx : p x = true
    · simp [repneScasRun, hx]
    · rw [show repneScasRun p (x :: xs)
          = ((repneScasRun p xs).1 + 1, (repneScasRun p xs).2) from by
        simp [repneScasRun, hx]]
      omega

theorem rep_cmps_x86_agrees (beq : α → α → Bool) :
    ∀ a b : List α, a.length = b.length →
      rep_cmps_x86 beq a b = rep_cmps beq a b a.length := by
  intro a
  induction a with
  | nil =>
    intro b h
    have hb : b = [] := List.length_eq_zero.mp h.symm
    subst hb
    rfl
  | cons x xs ih =>
    intro b h
    cases b with
    | nil => simp at h
    | cons y ys =>
      have h' : xs.length = ys.length := by simpa using h
      rw [List.length_cons, rep_cmps_cons, ← ih ys h']
      by_cases hxy : beq x y = true
      · have hrun : repeCmpsRun beq (x :: xs) (y :: ys)
            = ((repeCmpsRun beq xs ys).1 + 1, (repeCmpsRun beq xs ys).2) := by
          simp [repeCmpsRun, hxy]
        rw [if_pos hxy, rep_cmps_x86, rep_cmps_x86, hrun]
        cases hzf : (repeCmpsRun beq xs ys).2 with
        | true => simp [hzf]
        | false =>
          have h1 := repeCmpsRun_one_le beq xs ys hzf
          simp only [hzf, Bool.false_eq_true, if_false, Option.map_some']
          congr 1
          omega
      · have hrun : repeCmpsRun beq (x :: xs) (y :: ys) = (1, false) := by
          simp [repeCmpsRun, hxy]
        rw [if_neg hxy, rep_cmps_x86, hrun]
        simp

theorem rep_scas_x86_agrees (beq : α → α → Bool) (v : α) :
    ∀ src : List α, rep_scas_x86 beq src v = rep_scas beq src v src.length := by
  intro src
  induction src with
  | nil => rfl
  | cons x xs ih =>
    rw [List.length_cons, rep_scas_cons, ← ih]
    by_cases hxv : beq x v = true
    · have hrun : repneScasRun (fun z => beq z v) (x :: xs) = (1, true) := by
        simp [repneScasRun, hxv]
      rw [if_pos hxv, rep_scas_x86, hrun]
      simp
    · have hrun : repneScasRun (fun z => beq z v) (x :: xs)
          = ((repneScasRun (fun z => beq z v) xs).1 + 1,
             (repneScasRun (fun z => beq z v) xs).2) := by
        simp [repneScasRun, hxv]
      rw [if_neg hxv, rep_scas_x86, rep_scas_x86, hrun]
      cases hzf : (repneScasRun (fun z => beq z v) xs).2 with
      | false => simp [hzf]
      | true =>
        have h1 := repneScasRun_one_le _ xs hzf
        simp only [hzf, if_true, Option.map_some']
        congr 1
        omega

/-!  The claims. -/

/-- C1: for every register type in the closed set and every pair of
equal-length regions of length n, the compare operation (rep_cmps, and the
slice-layer inline_mismatch that forwards to it) returns some k exactly
when k is the zero-based index of the first element at which the regions
differ under bitwise equality, and returns none exactly when all n elements
match, vacuously so for n = 0. -/
theorem C1_compare_first_difference (t : RegisterType) (a b : List Nat)
    (n : Nat) (ha : a.length = n) (hb : b.length = n) :
    (∀ k, rep_cmps t.bitwise_eq a b n = some k ↔
        k < n ∧ t.bitwise_eq (a.getD k 0) (b.getD k 0) = false ∧
          ∀ j, j < k → t.bitwise_eq (a.getD j 0) (b.getD j 0) = true)
    ∧ (rep_cmps t.bitwise_eq a b n = none ↔
        ∀ j, j < n → t.bitwise_eq (a.getD j 0) (b.getD j 0) = true)
    ∧ inline_mismatch t.bitwise_eq a b
        = Except.ok (rep_cmps t.bitwise_eq a b n) := by
  refine ⟨fun k => rep_cmps_eq_some_iff t.bitwise_eq 0 a b n k ha hb,
    rep_cmps_eq_none_iff t.bitwise_eq 0 a b n ha hb, ?_⟩
  rw [inline_mismatch, if_pos (ha.trans hb.symm), ha]

/-- Witness for C1 at the spec's concrete scenario: the 8-bit regions
[1,2,3,4,5] and [1,2,3,5,5] first differ at index 3. -/
theorem C1_compare_first_difference_witness :
    rep_cmps RegisterType.u8.bitwise_eq [1, 2, 3, 4, 5] [1, 2, 3, 5, 5] 5
      = some 3 :=
  ((C1_compare_first_difference RegisterType.u8 [1, 2, 3, 4, 5]
    [1, 2, 3, 5, 5] 5 rfl rfl).1 3).mpr (by decide)

/-- C2: for every register type in the closed set, every region of length n
and every needle, the scan operation (rep_scas, and the slice-layer
inline_position that forwards to it) returns some i exactly when i is the
zero-based index of the first element bitwise-equal to the needle, and
returns none exactly when no element matches, vacuously so for n = 0. -/
theorem C2_scan_first_occurrence (t : RegisterType) (xs : List Nat) (v : Nat)
    (n : Nat) (h : xs.length = n) :
    (∀ i, rep_scas t.bitwise_eq xs v n = some i ↔
        i < n ∧ t.bitwise_eq (xs.getD i 0) v = true ∧
          ∀ j, j < i → t.bitwise_eq (xs.getD j 0) v = false)
    ∧ (rep_scas t.bitwise_eq xs v n = none ↔
        ∀ j, j < n → t.bitwise_eq (xs.getD j 0) v = false)
    ∧ inline_position t.bitwise_eq xs v
        = Except.ok (rep_scas t.bitwise_eq xs v n) := by
  refine ⟨fun i => rep_scas_eq_some_iff t.bitwise_eq 0 xs v n i h,
    rep_scas_eq_none_iff t.bitwise_eq 0 xs v n h, ?_⟩
  rw [inline_position, h]

/-- Witness for C2 at the spec's concrete scenario: scanning the 8-bit
region [1,2,2] for 2 finds the first occurrence at index 1 only. -/
theorem C2_scan_first_occurrence_witness :
    rep_scas RegisterType.u8.bitwise_eq [1, 2, 2] 2 3 = some 1 :=
  ((C2_scan_first_occurrence RegisterType.u8 [1, 2, 2] 2 3 rfl).1 1).mpr
    (by decide)

/-- C3: bitwise_eq coincides with native equality on every integer register
type; on f32 and f64 it compares the IEEE bit patterns, so a NaN is
bitwise-equal to itself (and compare/scan treat equal-pattern NaNs as
matching) even though native equality rejects it, while +0.0 and -0.0 are
bitwise-unequal (and compare reports them as a mismatch at index 0) even
though native equality accepts them. -/
theorem C3_bitwise_vs_native_equality (t : RegisterType)
    (ht : t.isFloat = false) (a b : Nat) :
    t.bitwise_eq a b = t.nativeEq a b
    ∧ (∀ x, f32_is_nan x = true →
        RegisterType.f32.bitwise_eq x x = true
          ∧ RegisterType.f32.nativeEq x x = false)
    ∧ (∀ x, f64_is_nan x = true →
        RegisterType.f64.bitwise_eq x x = true
          ∧ RegisterType.f64.nativeEq x x = false)
    ∧ (RegisterType.f32.bitwise_eq 0 (2 ^ 31) = false
       ∧ RegisterType.f32.nativeEq 0 (2 ^ 31) = true
       ∧ rep_cmps RegisterType.f32.bitwise_eq [0] [2 ^ 31] 1 = some 0)
    ∧ (RegisterType.f64.bitwise_eq 0 (2 ^ 63) = false
       ∧ RegisterType.f64.nativeEq 0 (2 ^ 63) = true
       ∧ rep_cmps RegisterType.f64.bitwise_eq [0] [2 ^ 63] 1 = some 0)
    ∧ rep_cmps RegisterType.f64.bitwise_eq [0x7FF8000000000000]
        [0x7FF8000000000000] 1 = none
    ∧ rep_scas RegisterType.f64.bitwise_eq [0x7FF8000000000000]
        0x7FF8000000000000 1 = some 0 := by
  refine ⟨?_, ?_, ?_, by decide, by decide, by decide, by decide⟩
  · cases t <;>
      simp_all [RegisterType.bitwise_eq, RegisterType.nativeEq,
        RegisterType.isFloat]
  · intro x hx
    exact ⟨by simp [RegisterType.bitwise_eq, floatToBits],
      by simp [RegisterType.nativeEq, f32_eq, hx]⟩
  · intro x hx
    exact ⟨by simp [RegisterType.bitwise_eq, floatToBits],
      by simp [RegisterType.nativeEq, f64_eq, hx]⟩

/-- Witness for C3: the integer clause at u8 with 3 and 5, and the NaN
clause at the standard quiet-NaN f32 pattern 0x7FC00000. -/
theorem C3_bitwise_vs_native_equality_witness :
    RegisterType.u8.bitwise_eq 3 5 = RegisterType.u8.nativeEq 3 5
    ∧ RegisterType.f32.bitwise_eq 0x7FC00000 0x7FC00000 = true
    ∧ RegisterType.f32.nativeEq 0x7FC00000 0x7FC00000 = false :=
  ⟨(C3_bitwise_vs_native_equality RegisterType.u8 rfl 3 5).1,
   ((C3_bitwise_vs_native_equality RegisterType.u8 rfl 3 5).2.1
     0x7FC00000 (by decide)).1,
   ((C3_bitwise_vs_native_equality RegisterType.u8 rfl 3 5).2.1
     0x7FC00000 (by decide)).2⟩

/-- C4: whenever the two slices of a checked binary operation differ in
length, inline_copy_from and inline_mismatch raise the length-mismatch
fault, and inline_copy_from leaves the destination memory completely
unchanged: the assertion fires before the primitive is invoked. -/
theorem C4_length_mismatch_rejected (beq : α → α → Bool)
    (dest other a b : List α) (h1 : dest.length ≠ other.length)
    (h2 : a.length ≠ b.length) :
    inline_copy_from dest other = (dest, some "length mismatch")
    ∧ inline_mismatch beq a b = Except.error "length mismatch" := by
  rw [inline_copy_from, if_neg h1, inline_mismatch, if_neg h2]
  exact ⟨rfl, rfl⟩

/-- Witness for C4: copying a 4-element slice into a 3-element one faults
and leaves the destination [0,0,0] untouched, as in the repository's
should-panic tests. -/
theorem C4_length_mismatch_rejected_witness :
    inline_copy_from [0, 0, 0] [1, 2, 3, 4]
      = (([0, 0, 0] : List Nat), some "length mismatch")
    ∧ inline_mismatch RegisterType.u8.bitwise_eq [1, 2, 3] [1, 2]
      = Except.error "length mismatch" :=
  ⟨(C4_length_mismatch_rejected RegisterType.u8.bitwise_eq [0, 0, 0]
      [1, 2, 3, 4] [1, 2, 3] [1, 2] (by decide) (by decide)).1,
   (C4_length_mismatch_rejected RegisterType.u8.bitwise_eq [0, 0, 0]
      [1, 2, 3, 4] [1, 2, 3] [1, 2] (by decide) (by decide)).2⟩

/-- C5: copying n elements between disjoint equal-length regions (rep_movs,
and inline_copy_from at the slice layer) fully overwrites the destination:
afterwards the destination region equals the source region element for
element, and no fault is raised. -/
theorem C5_copy_overwrites_destination (src dst : List α) (n : Nat)
    (hs : src.length = n) (hd : dst.length = n) :
    rep_movs src dst n = src
    ∧ (∀ j d, j < n → (rep_movs src dst n).getD j d = src.getD j d)
    ∧ inline_copy_from dst src = (src, none) := by
  have hm : rep_movs src dst n = src := rep_movs_eq_src src dst n hs hd
  refine ⟨hm, fun j d hj => by rw [hm], ?_⟩
  rw [inline_copy_from, if_pos (hd.trans hs.symm), hd, ← hs,
    rep_movs_eq_src src dst src.length rfl (hd.trans hs.symm)]

/-- Witness for C5 at the spec's concrete scenario: copying the 16-bit
region [1,2,3,4,5] into a zeroed region of the same length reproduces the
source exactly. -/
theorem C5_copy_overwrites_destination_witness :
    inline_copy_from [0, 0, 0, 0, 0] [1, 2, 3, 4, 5]
      = (([1, 2, 3, 4, 5] : List Nat), none) :=
  (C5_copy_overwrites_destination [1, 2, 3, 4, 5] [0, 0, 0, 0, 0] 5
    rfl rfl).2.2

/-- C6: for every register type, length n and fill value v, rep_stos writes
v into every element of the destination region; afterwards scanning the
region for v yields some 0 when n > 0 and none when n = 0, and comparing it
against a second region independently filled with v yields none. -/
theorem C6_fill_scan_compare (t : RegisterType) (v n : Nat)
    (dst dst2 : List Nat) (hd : dst.length = n) (hd2 : dst2.length = n) :
    rep_stos v dst n = List.replicate n v
    ∧ (∀ j d, j < n → (rep_stos v dst n).getD j d = v)
    ∧ rep_scas t.bitwise_eq (rep_stos v dst n) v n
        = (if n = 0 then none else some 0)
    ∧ rep_cmps t.bitwise_eq (rep_stos v dst n) (rep_stos v dst2 n) n
        = none := by
  have h1 : rep_stos v dst n = List.replicate n v :=
    rep_stos_eq_replicate v dst n hd
  have h2 : rep_stos v dst2 n = List.replicate n v :=
    rep_stos_eq_replicate v dst2 n hd2
  refine ⟨h1, fun j d hj => ?_, ?_, ?_⟩
  · rw [h1, List.getD_eq_getElem _ _ (by simpa using hj), List.getElem_replicate]
  · rw [h1]
    exact rep_scas_replicate t.bitwise_eq v (t.bitwise_eq_refl v) n
  · rw [h1, h2]
    exact rep_cmps_self_of_length t.bitwise_eq (t.bitwise_eq_refl)
      (List.replicate n v) n (List.length_replicate n v)

/-- Witness for C6 at the spec's concrete scenario: filling a 5-element
region with 42, then scanning for 42 and comparing against a second region
filled with 42. -/
theorem C6_fill_scan_compare_witness :
    rep_stos 42 [0, 0, 0, 0, 0] 5 = [42, 42, 42, 42, 42]
    ∧ rep_scas RegisterType.u8.bitwise_eq (rep_stos 42 [0, 0, 0, 0, 0] 5) 42 5
        = some 0
    ∧ rep_cmps RegisterType.u8.bitwise_eq (rep_stos 42 [0, 0, 0, 0, 0] 5)
        (rep_stos 42 [9, 9, 9, 9, 9] 5) 5 = none := by
  have h := C6_fill_scan_compare RegisterType.u8 42 5 [0, 0, 0, 0, 0]
    [9, 9, 9, 9, 9] rfl rfl
  exact ⟨h.1, by rw [h.2.2.1]; rfl, h.2.2.2⟩

/-- C7: for every register type and region length, copying a source region
into a disjoint destination and then comparing source against destination
yields none, full equality. -/
theorem C7_copy_then_compare_equal (t : RegisterType) (src dst : List Nat)
    (n : Nat) (hs : src.length = n) (hd : dst.length = n) :
    rep_cmps t.bitwise_eq src (rep_movs src dst n) n = none := by
  rw [rep_movs_eq_src src dst n hs hd, ← hs]
  exact rep_cmps_self t.bitwise_eq (t.bitwise_eq_refl) src

/-- Witness for C7: copy [7,8,9] into a zeroed region, then compare. -/
theorem C7_copy_then_compare_equal_witness :
    rep_cmps RegisterType.u32.bitwise_eq [7, 8, 9]
      (rep_movs [7, 8, 9] [0, 0, 0] 3) 3 = none :=
  C7_copy_then_compare_equal RegisterType.u32 [7, 8, 9] [0, 0, 0] 3 rfl rfl

/-- C9: comparing any slice against itself (both operands the same region)
yields no mismatch, because bitwise_eq is reflexive for every value of
every register type — including NaN patterns, for which native f64 equality
is not reflexive. -/
theorem C9_self_mismatch_none (t : RegisterType) (xs : List Nat) :
    inline_mismatch t.bitwise_eq xs xs = Except.ok none
    ∧ (∀ a, t.bitwise_eq a a = true)
    ∧ (∀ a, f64_is_nan a = true → RegisterType.f64.nativeEq a a = false) := by
  refine ⟨?_, t.bitwise_eq_refl,
    fun a ha => by simp [RegisterType.nativeEq, f64_eq, ha]⟩
  rw [inline_mismatch, if_pos rfl,
    rep_cmps_self t.bitwise_eq t.bitwise_eq_refl xs]

/-- Witness for C9: a two-element f64 region of NaN bit patterns matches
itself, while native equality rejects the quiet NaN against itself. -/
theorem C9_self_mismatch_none_witness :
    inline_mismatch RegisterType.f64.bitwise_eq
      [0x7FF8000000000000, 0x7FF0000000000001]
      [0x7FF8000000000000, 0x7FF0000000000001] = Except.ok none
    ∧ RegisterType.f64.nativeEq 0x7FF8000000000000 0x7FF8000000000000
        = false :=
  ⟨(C9_self_mismatch_none RegisterType.f64
      [0x7FF8000000000000, 0x7FF0000000000001]).1,
   (C9_self_mismatch_none RegisterType.f64 []).2.2 0x7FF8000000000000
      (by decide)⟩

/-- C10: at the checked-slice layer, inline_fill and inline_position never
raise a fault for any slice and value, and the length-mismatch assertion is
the only failure path of inline_copy_from and inline_mismatch: each runs to
completion exactly when the two slices have equal lengths. -/
theorem C10_wrapper_fault_conditions (beq : α → α → Bool) (v : α)
    (xs dest other a b : List α) :
    (inline_fill v xs).2 = none
    ∧ inline_position beq xs v = Except.ok (rep_scas beq xs v xs.length)
    ∧ ((inline_copy_from dest other).2 = none ↔ dest.length = other.length)
    ∧ (inline_mismatch beq a b = Except.ok (rep_cmps beq a b a.length)
        ↔ a.length = b.length) := by
  refine ⟨rfl, rfl, ?_, ?_⟩
  · by_cases h : dest.length = other.length <;> simp [inline_copy_from, h]
  · by_cases h : a.length = b.length <;> simp [inline_mismatch, h]

/-- C8: the requirement that the x86_64 instruction path produce results
identical to the portable fallback for every element type in the closed set
fails for the 128-bit types: the default dispatch arm of rep_stos truncates
the value to its least-significant byte (transmute_copy into u8) before rep
stosb, so storing the u128 value 256 into a one-element region leaves
sixteen zero bytes, while the portable path stores the byte image
00 01 00 ... 00 of the full value. -/
theorem C8_x86_stos_128bit_divergence :
    rep_stos_x86_default 16 256 (List.replicate 16 0) 1
        ≠ regionBytes 16 (rep_stos 256 [0] 1)
    ∧ rep_stos_x86_default 16 256 (List.replicate 16 0) 1
        = List.replicate 16 0
    ∧ regionBytes 16 (rep_stos 256 [0] 1)
        = [0, 1, 0, 0, 0, 0, 0, 0, 0, 0, 0, 0, 0, 0, 0, 0] := by
  decide
